import Mathlib

/-!
Verification of the aiproxy MITM proxy core (`src/mitm_proxy.py`):
domain-rule resolution (`get_target_domain`), CONNECT dispatch
(`handle_connect`), certificate-authority persistence
(`CertManager._load_or_generate_ca`), leaf-certificate issuance
(`CertManager.generate_cert_for_domain`), the MITM session lifecycle
(`do_mitm`), plain HTTP forwarding (`handle_request` / `forward_http`),
and the bidirectional relay loop (`relay_data`).

Strings of the source are modelled as `List Char`; machine-level socket
effects are modelled by explicit traces of the events the code branches on.
-/

namespace AIProxy

/-- Model of a Python string: a list of characters. -/
abbrev PyStr := List Char

/-- Models Python `s.split(c)` for a one-character separator: splits at every
occurrence, keeping empty pieces; returns `[s]` when the separator does not
occur, and `[""]` on the empty string. -/
def pySplitChar (c : Char) : PyStr → List PyStr
  | [] => [[]]
  | a :: t =>
    if a = c then [] :: pySplitChar c t
    else
      match pySplitChar c t with
      | [] => [[a]]
      | x :: xs => (a :: x) :: xs

/-- Fuel-driven worker for `pySplitSub`: structural recursion on the fuel
so that the kernel can evaluate it.  Every recursive call consumes at
least one character of `s`, so any fuel above `s.length` is enough. -/
def pySplitSubFuel (c : Char) (ps : PyStr) : Nat → PyStr → List PyStr
  | 0, s => [s]
  | _ + 1, [] => [[]]
  | fuel + 1, a :: t =>
    if (c :: ps).isPrefixOf (a :: t) then
      [] :: pySplitSubFuel c ps fuel (t.drop ps.length)
    else
      match pySplitSubFuel c ps fuel t with
      | [] => [[a]]
      | x :: xs => (a :: x) :: xs

/-- Models Python `s.split(pat)` for the non-empty separator `c :: ps`
(leftmost, non-overlapping occurrences). -/
def pySplitSub (c : Char) (ps : PyStr) (s : PyStr) : List PyStr :=
  pySplitSubFuel c ps (s.length + 1) s

/-- Models Python `pat in s` (substring containment) for the non-empty
pattern `c :: ps`. -/
def hasSub (c : Char) (ps : PyStr) : PyStr → Bool
  | [] => false
  | a :: t => (c :: ps).isPrefixOf (a :: t) || hasSub c ps t

/-- Abbreviation for the containment test `'://' in s` used by the source. -/
def hasScheme (s : PyStr) : Bool := hasSub ':' ['/', '/'] s

/-- Abbreviation for `s.split('://')` used by the source. -/
def splitScheme (s : PyStr) : List PyStr := pySplitSub ':' ['/', '/'] s

/-- Model of the `proxy_rules` JSON object: insertion-ordered
`source → target` pairs (Python dicts iterate in insertion order, and
`get_target_domain` returns on the first matching rule). -/
abbrev RuleSet := List (PyStr × PyStr)

/-- Per-rule key normalisation inside the loop of
`MITMProxyServer.get_target_domain`:
`key_domain = key.split('://')[-1] if '://' in key else key`. -/
def keyDomainOf (key : PyStr) : PyStr :=
  if hasScheme key then (splitScheme key).getLastD [] else key

/-- Per-rule value normalisation inside the loop of
`MITMProxyServer.get_target_domain`:
`target = value.split('://')[-1] if '://' in value else value`. -/
def valueTarget (value : PyStr) : PyStr :=
  if hasScheme value then (splitScheme value).getLastD [] else value

/-- The match condition of one rule:
`domain == key_domain or domain.endswith(key_domain)`. -/
def ruleMatches (domain key : PyStr) : Bool :=
  domain == keyDomainOf key || (keyDomainOf key).isSuffixOf domain

/-- The `for key, value in rules.items():` loop of
`MITMProxyServer.get_target_domain` (mitm_proxy.py lines 196-203): returns
the scheme-stripped value of the first matching rule, else `domain`. -/
def ruleLoop (domain : PyStr) : RuleSet → PyStr
  | [] => domain
  | (key, value) :: rest =>
    if ruleMatches domain key then valueTarget value else ruleLoop domain rest

/-- Model of `MITMProxyServer.get_target_domain` (mitm_proxy.py lines
189-203).  Note the source computes `domain = original_domain.split(':')[0]`
first and only then tests `'://' in domain`; since `split(':')[0]` cannot
contain a colon, the scheme-strip branch on the input is unreachable (see
`scheme_strip_branch_dead`). -/
def get_target_domain (rules : RuleSet) (original_domain : PyStr) : PyStr :=
  let domain0 := (pySplitChar ':' original_domain).headD []
  let domain :=
    if hasScheme domain0 then (splitScheme domain0).getD 1 [] else domain0
  ruleLoop domain rules

theorem pySplitChar_ne_nil (c : Char) (s : PyStr) : pySplitChar c s ≠ [] := by
  cases s with
  | nil => simp [pySplitChar]
  | cons a t =>
    rw [pySplitChar]
    split
    · simp
    · split <;> simp

/-- Splitting a string that does not contain the separator returns the
string whole. -/
theorem pySplitChar_no_sep (c : Char) (s : PyStr) (h : c ∉ s) :
    pySplitChar c s = [s] := by
  induction s with
  | nil => rfl
  | cons a t ih =>
    simp only [List.mem_cons, not_or] at h
    rw [pySplitChar, if_neg (fun hac => h.1 hac.symm), ih h.2]

/-- Splitting around a single explicit separator occurrence. -/
theorem pySplitChar_append_sep (c : Char) (a b : PyStr) (ha : c ∉ a) :
    pySplitChar c (a ++ c :: b) = a :: pySplitChar c b := by
  induction a with
  | nil => simp [pySplitChar]
  | cons x t ih =>
    simp only [List.mem_cons, not_or] at ha
    rw [List.cons_append, pySplitChar, if_neg (fun hxc => ha.1 hxc.symm),
      ih ha.2]

/-- A string without a colon contains no occurrence of a pattern that starts
with a colon. -/
theorem hasSub_colon_of_not_mem (ps : PyStr) (s : PyStr) (h : ':' ∉ s) :
    hasSub ':' ps s = false := by
  induction s with
  | nil => rfl
  | cons a t ih =>
    simp only [List.mem_cons, not_or] at h
    rw [hasSub, List.isPrefixOf]
    have : (':' == a) = false := by
      simp only [beq_eq_false_iff_ne, ne_eq]
      exact h.1
    rw [this]
    simp only [Bool.false_and, Bool.false_or]
    exact ih h.2

/-- The separator never occurs in the first piece of a split. -/
theorem pySplitChar_head_not_mem (c : Char) (s : PyStr) :
    c ∉ (pySplitChar c s).headD [] := by
  induction s with
  | nil => simp [pySplitChar]
  | cons a t ih =>
    rw [pySplitChar]
    by_cases hac : a = c
    · rw [if_pos hac]; simp
    · rw [if_neg hac]
      cases hrec : pySplitChar c t with
      | nil => exact absurd hrec (pySplitChar_ne_nil c t)
      | cons x xs =>
        rw [hrec] at ih
        simp only [List.headD_cons] at ih ⊢
        simp only [List.mem_cons, not_or]
        exact ⟨fun hca => hac hca.symm, ih⟩

/-- The scheme-strip branch on the input of `get_target_domain` is dead
code: the first element of `original_domain.split(':')` can never contain
the substring `'://'`. -/
theorem scheme_strip_branch_dead (s : PyStr) :
    hasScheme ((pySplitChar ':' s).headD []) = false :=
  hasSub_colon_of_not_mem _ _ (pySplitChar_head_not_mem ':' s)

/-- Resolution of a colon-free host reduces to the plain rule loop: the
port-strip and (dead) scheme-strip steps leave the host unchanged. -/
theorem get_target_domain_bare (rules : RuleSet) (host : PyStr)
    (h : ':' ∉ host) :
    get_target_domain rules host = ruleLoop host rules := by
  unfold get_target_domain
  rw [pySplitChar_no_sep ':' host h]
  simp only [List.headD_cons]
  rw [show hasScheme host = false from hasSub_colon_of_not_mem _ _ h]
  simp

/-- The rule loop skips every non-matching rule. -/
theorem ruleLoop_no_match (domain : PyStr) (rules : RuleSet)
    (h : ∀ kv ∈ rules, ruleMatches domain kv.1 = false) :
    ruleLoop domain rules = domain := by
  induction rules with
  | nil => rfl
  | cons kv t ih =>
    obtain ⟨k, v⟩ := kv
    rw [ruleLoop, if_neg (by simp [h (k, v) (List.mem_cons_self _ _)])]
    exact ih fun kv hm => h kv (List.mem_cons_of_mem _ hm)

/-- The rule loop returns the scheme-stripped value of the first matching
rule. -/
theorem ruleLoop_first_match (domain : PyStr) (r1 r2 : RuleSet)
    (key value : PyStr)
    (h1 : ∀ kv ∈ r1, ruleMatches domain kv.1 = false)
    (h2 : ruleMatches domain key = true) :
    ruleLoop domain (r1 ++ (key, value) :: r2) = valueTarget value := by
  induction r1 with
  | nil => rw [List.nil_append, ruleLoop, if_pos h2]
  | cons kv t ih =>
    obtain ⟨k, v⟩ := kv
    rw [List.cons_append, ruleLoop,
      if_neg (by simp [h1 (k, v) (List.mem_cons_self _ _)])]
    exact ih fun kv hm => h1 kv (List.mem_cons_of_mem _ hm)

/-- String literals used by the concrete instances below. -/
def litExampleCom : PyStr := "example.com".toList

def litNotExampleCom : PyStr := "notexample.com".toList

def litNot : PyStr := "not".toList

def litTargetDomain : PyStr := "target.example.org".toList

def litMapped : PyStr := "mapped.example.org".toList

def litHttpExampleCom : PyStr := "http://example.com".toList

def litHttp : PyStr := "http".toList

def litCom : PyStr := "com".toList

def litSiteA : PyStr := "site-a.org".toList

def litSiteB : PyStr := "site-b.org".toList

def litExampleComPort : PyStr := "example.com:8080".toList

def litOtherOrg : PyStr := "other.org".toList

/-- C2 (amended): for a configured rule `(source, target)` whose key is a
colon-free hostname, whose value is scheme-free, and which is not shadowed
by an earlier matching rule, `get_target_domain` maps `source` itself and
every prefixed host `x ++ source` (for colon-free `x`) to `target` — the
exact-or-suffix match property, including the `notexample.com`
over-matching instance exercised by the witness. -/
theorem suffix_match_resolves (rules r1 r2 : RuleSet) (source target x : PyStr)
    (hrules : rules = r1 ++ (source, target) :: r2)
    (hsrc : ':' ∉ source) (hx : ':' ∉ x)
    (htgt : hasScheme target = false)
    (hfirst : ∀ kv ∈ r1, ruleMatches source kv.1 = false
      ∧ ruleMatches (x ++ source) kv.1 = false) :
    get_target_domain rules source = target
    ∧ get_target_domain rules (x ++ source) = target := by
  have hxs : ':' ∉ x ++ source := by
    simp only [List.mem_append, not_or]
    exact ⟨hx, hsrc⟩
  have hkd : keyDomainOf source = source := by
    unfold keyDomainOf
    rw [show hasScheme source = false from hasSub_colon_of_not_mem _ _ hsrc]
    simp
  have hvt : valueTarget target = target := by
    unfold valueTarget
    rw [htgt]
    simp
  have hm1 : ruleMatches source source = true := by
    unfold ruleMatches
    rw [hkd]
    simp
  have hm2 : ruleMatches (x ++ source) source = true := by
    unfold ruleMatches
    rw [hkd]
    have : source.isSuffixOf (x ++ source) = true := by
      rw [List.isSuffixOf_iff_suffix]
      exact List.suffix_append x source
    simp [this]
  subst hrules
  constructor
  · rw [get_target_domain_bare _ _ hsrc,
      ruleLoop_first_match source r1 r2 source target
        (fun kv hm => (hfirst kv hm).1) hm1, hvt]
  · rw [get_target_domain_bare _ _ hxs,
      ruleLoop_first_match (x ++ source) r1 r2 source target
        (fun kv hm => (hfirst kv hm).2) hm2, hvt]

/-- C2 witness: the rule `example.com → target.example.org` maps both
`example.com` and `notexample.com` (the documented over-match) to the
target. -/
theorem suffix_match_resolves_witness :
    get_target_domain [(litExampleCom, litTargetDomain)] litExampleCom
        = litTargetDomain
    ∧ get_target_domain [(litExampleCom, litTargetDomain)] litNotExampleCom
        = litTargetDomain := by
  have h := suffix_match_resolves [(litExampleCom, litTargetDomain)] [] []
    litExampleCom litTargetDomain litNot rfl (by decide) (by decide)
    (by decide) (by intro kv hm; cases hm)
  have hx : litNot ++ litExampleCom = litNotExampleCom := by decide
  exact ⟨h.1, hx ▸ h.2⟩

/-- C2 counterexample: the claim as stated fails when an earlier rule also
matches: with rules `{com → site-a.org, example.com → site-b.org}` the
configured rule `example.com → site-b.org` does not give
`resolve(example.com) = site-b.org` — the earlier `com` rule wins. -/
theorem suffix_match_shadowed :
    get_target_domain [(litCom, litSiteA), (litExampleCom, litSiteB)]
        litExampleCom ≠ litSiteB := by decide

/-- C7: evaluation at the failing input — with the rule
`example.com → mapped.example.org`, the scheme-prefixed input
`http://example.com` is matched as the bare string `http` (the port split
at the first colon runs before the scheme strip, which is dead code), so
no rule matches and `http` is returned instead of the mapped target. -/
theorem scheme_input_matched_as_scheme :
    get_target_domain [(litExampleCom, litMapped)] litHttpExampleCom
      = litHttp := by decide

/-- C8 (amended): a colon-free host matched by no configured rule is
returned unchanged; the general claim fails because the source first
truncates the input at its first colon (see the counterexample). -/
theorem resolve_no_match_identity (rules : RuleSet) (h : PyStr)
    (hcol : ':' ∉ h)
    (hnm : ∀ kv ∈ rules, ruleMatches h kv.1 = false) :
    get_target_domain rules h = h := by
  rw [get_target_domain_bare rules h hcol]
  exact ruleLoop_no_match h rules hnm

/-- C8 witness: `other.org` is not matched by the rule for `example.com`
and comes back unchanged. -/
theorem resolve_no_match_identity_witness :
    get_target_domain [(litExampleCom, litTargetDomain)] litOtherOrg
      = litOtherOrg :=
  resolve_no_match_identity _ _ (by decide) (by decide)

/-- C8 counterexample: with no rules configured at all (so no rule
matches), `example.com:8080` is not returned unchanged — the port is
stripped. -/
theorem resolve_strips_port :
    get_target_domain [] litExampleComPort ≠ litExampleComPort := by decide

/-- ASCII decimal digit test. -/
def isAsciiDigit (ch : Char) : Bool := '0' ≤ ch && ch ≤ '9'

/-- Whitespace stripped by the `int()` builtin (ASCII subset). -/
def isPySpace (ch : Char) : Bool :=
  ch = ' ' || ch = '\t' || ch = '\n' || ch = '\r'
    || ch = Char.ofNat 11 || ch = Char.ofNat 12

/-- Models `s.strip()` for ASCII whitespace. -/
def pyStrip (s : PyStr) : PyStr :=
  ((s.dropWhile isPySpace).reverse.dropWhile isPySpace).reverse

/-- Digit tail of an integer literal: the `int()` builtin allows single
underscores, each strictly between two digits.  `acc` is the value read so
far. -/
def pyDigitsTail (acc : Nat) : PyStr → Option Nat
  | [] => some acc
  | '_' :: d :: t =>
    if isAsciiDigit d then pyDigitsTail (acc * 10 + (d.toNat - 48)) t
    else none
  | ['_'] => none
  | d :: t =>
    if isAsciiDigit d then pyDigitsTail (acc * 10 + (d.toNat - 48)) t
    else none

/-- Models the `int(s)` builtin on an ASCII string: strip whitespace, allow
one sign, then digits with single underscores between them; `none` where
the builtin raises `ValueError`. -/
def pyIntParse (s : PyStr) : Option Int :=
  match pyStrip s with
  | '+' :: d :: r =>
    if isAsciiDigit d then (pyDigitsTail (d.toNat - 48) r).map Int.ofNat
    else none
  | '-' :: d :: r =>
    if isAsciiDigit d then
      (pyDigitsTail (d.toNat - 48) r).map (fun n => -(n : Int))
    else none
  | d :: r =>
    if isAsciiDigit d then (pyDigitsTail (d.toNat - 48) r).map Int.ofNat
    else none
  | [] => none

/-- Outcome of `MITMProxyServer.handle_connect` (mitm_proxy.py lines
268-297).  `mitm orig tgt port` means `do_mitm(client, orig, tgt, port)`
runs: a certificate is forged for `orig` while `tgt` is dialled.
`tunnel h port` means `do_tunnel(client, h, port)` runs: raw passthrough,
no certificate forgery.  `err502` means the `except` branch of
`handle_connect` itself ran: no outbound connection was opened and a
`HTTP/1.1 502 Bad Gateway` status line is best-effort written to the
client before the connection is closed. -/
inductive ConnectAction
  | mitm (originalHost targetHost : PyStr) (port : Int)
  | tunnel (host : PyStr) (port : Int)
  | err502
deriving DecidableEq

/-- Dispatch step of `handle_connect` (mitm_proxy.py lines 278-289): map
the host through the rules; a changed host goes to MITM, an unchanged one
to the raw tunnel. -/
def connectDispatch (rules : RuleSet) (host : PyStr) (port : Int) :
    ConnectAction :=
  let mapped := get_target_domain rules host
  if mapped ≠ host then .mitm host mapped port else .tunnel host port

/-- Model of `MITMProxyServer.handle_connect` as a function from the
CONNECT target string to the action taken.  The source runs
`host, port = target.split(':')` — which raises unless the split has
exactly two pieces — and `port = int(port)`, which raises on a bad port;
either raise lands in the `except` branch (`err502`).  A target without a
colon gets port 443. -/
def handle_connect (rules : RuleSet) (target : PyStr) : ConnectAction :=
  match pySplitChar ':' target with
  | [host] => connectDispatch rules host 443
  | [host, portStr] =>
    match pyIntParse portStr with
    | some port => connectDispatch rules host port
    | none => .err502
  | _ => .err502

/-- C3: for a CONNECT target `host:port` that parses (colon-free host,
integral port), the handler takes the MITM path — forging a certificate
for the original host and dialling the resolved host — exactly when the
resolved target differs from the original host, and the raw tunnel path
exactly when it is unchanged. -/
theorem connect_dispatch_mitm_iff (rules : RuleSet) (host portStr : PyStr)
    (port : Int) (hh : ':' ∉ host) (hp : ':' ∉ portStr)
    (hport : pyIntParse portStr = some port) :
    (handle_connect rules (host ++ ':' :: portStr)
        = .mitm host (get_target_domain rules host) port
      ↔ get_target_domain rules host ≠ host)
    ∧ (handle_connect rules (host ++ ':' :: portStr) = .tunnel host port
      ↔ get_target_domain rules host = host) := by
  have hsplit : pySplitChar ':' (host ++ ':' :: portStr)
      = [host, portStr] := by
    rw [pySplitChar_append_sep ':' host portStr hh,
      pySplitChar_no_sep ':' portStr hp]
  rw [handle_connect, hsplit]
  simp only [hport]
  unfold connectDispatch
  by_cases hmap : get_target_domain rules host = host
  · rw [if_neg (by simp [hmap])]
    simp [hmap]
  · rw [if_pos (by simpa using hmap)]
    simp [hmap]

/-- C3 witness: `example.com:443` with a mapping rule goes to MITM with
the certificate identity `example.com` and the dial target
`mapped.example.org`; `other.org:443` with no matching rule goes to the
raw tunnel. -/
theorem connect_dispatch_mitm_iff_witness :
    handle_connect [(litExampleCom, litMapped)] ("example.com:443".toList)
        = .mitm litExampleCom
            (get_target_domain [(litExampleCom, litMapped)] litExampleCom)
            443
    ∧ handle_connect [(litExampleCom, litMapped)] ("other.org:443".toList)
        = .tunnel litOtherOrg 443 := by
  constructor
  · have e : "example.com:443".toList
        = litExampleCom ++ ':' :: ("443".toList) := by decide
    rw [e]
    exact (connect_dispatch_mitm_iff [(litExampleCom, litMapped)]
      litExampleCom ("443".toList) 443 (by decide) (by decide)
      (by decide)).1.mpr (by decide)
  · have e : "other.org:443".toList
        = litOtherOrg ++ ':' :: ("443".toList) := by decide
    rw [e]
    exact (connect_dispatch_mitm_iff [(litExampleCom, litMapped)]
      litOtherOrg ("443".toList) 443 (by decide) (by decide)
      (by decide)).2.mpr (by decide)

/-- C10: a CONNECT target whose colon-split has more than two pieces (for
example a bracketed IPv6 literal), or whose port piece the `int()` builtin
rejects, makes `handle_connect` take its `except` branch: no outbound
connection is opened and a `502 Bad Gateway` status line is best-effort
written. -/
theorem connect_bad_target_502 (rules : RuleSet) (target : PyStr)
    (h : 3 ≤ (pySplitChar ':' target).length
      ∨ ∃ host portStr, pySplitChar ':' target = [host, portStr]
          ∧ pyIntParse portStr = none) :
    handle_connect rules target = .err502 := by
  rcases h with h | ⟨host, portStr, he, hp⟩
  · rcases hs : pySplitChar ':' target with _ | ⟨a, t1⟩
    · rw [hs] at h; simp at h
    · rcases t1 with _ | ⟨b, t2⟩
      · rw [hs] at h; simp at h
      · rcases t2 with _ | ⟨cc, t3⟩
        · rw [hs] at h; simp at h
        · rw [handle_connect, hs]
  · rw [handle_connect, he]
    show (match pyIntParse portStr with
      | some port => connectDispatch rules host port
      | none => ConnectAction.err502) = ConnectAction.err502
    rw [hp]

/-- C10 witness: the bracketed IPv6 target `[::1]:443` and the
non-numeric port in `example.com:http` both yield the 502 path. -/
theorem connect_bad_target_502_witness :
    handle_connect [] ("[::1]:443".toList) = .err502
    ∧ handle_connect [] ("example.com:http".toList) = .err502 :=
  ⟨connect_bad_target_502 [] _ (Or.inl (by decide)),
   connect_bad_target_502 [] _
     (Or.inr ⟨litExampleCom, "http".toList, by decide, by decide⟩)⟩

/-- Result of one `recv` (and the `sendall` that follows it) inside the
relay loop: `ok data` is a successful read, where `ok []` is a zero-byte
read (peer close); `err` is an exception raised by `recv` or `sendall`,
caught by the inner `except` of `relay_data`. -/
inductive RecvResult
  | ok (data : List Nat)
  | err
deriving DecidableEq

/-- One round of `select.select(sockets, [], sockets, timeout)` in
`relay_data`: whether each of the two sockets is readable (and what
reading it then yields), and whether an exceptional condition was
reported.  Both `none` with `exceptional = false` is the 10-second idle
timeout expiring with no data. -/
structure SelectRound where
  readableClient : Option RecvResult
  readableTarget : Option RecvResult
  exceptional : Bool
deriving DecidableEq

/-- Bytes transferred so far in each direction by the relay. -/
structure RelayState where
  toClient : List Nat
  toTarget : List Nat
deriving DecidableEq

/-- Whether the relay function has returned (or broken out of its loop) at
the end of the supplied trace, or is still inside `while True` waiting on
the next `select`. -/
inductive RelayOutcome
  | terminated
  | running
deriving DecidableEq

/-- Body of `for sock in readable:` in `relay_data` for one readable
socket: `none` models a `return` (zero-byte read, or an exception caught
by the inner `except`); `some st` forwards the chunk to the opposite side
and continues. -/
def relayRecv (fromClient : Bool) (r : RecvResult) (st : RelayState) :
    Option RelayState :=
  match r with
  | .err => none
  | .ok [] => none
  | .ok d =>
    some (if fromClient then { st with toTarget := st.toTarget ++ d }
      else { st with toClient := st.toClient ++ d })

/-- Model of `MITMProxyServer.relay_data` (mitm_proxy.py lines 416-443)
driven by a finite trace of select rounds, processing the client socket
before the target socket within a round (the order of
`sockets = [client_socket, target_socket]`, which `select` preserves).
The exceptional check runs first (`if exceptional: break`); a round with
nothing readable is `continue` — the loop keeps waiting. -/
def relay_data : List SelectRound → RelayState → RelayOutcome × RelayState
  | [], st => (.running, st)
  | r :: rest, st =>
    if r.exceptional then (.terminated, st)
    else
      match r.readableClient with
      | some res =>
        match relayRecv true res st with
        | none => (.terminated, st)
        | some st1 =>
          match r.readableTarget with
          | some res2 =>
            match relayRecv false res2 st1 with
            | none => (.terminated, st1)
            | some st2 => relay_data rest st2
          | none => relay_data rest st1
      | none =>
        match r.readableTarget with
        | some res2 =>
          match relayRecv false res2 st with
          | none => (.terminated, st)
          | some st2 => relay_data rest st2
        | none => relay_data rest st

/-- An idle select round: the timeout expired with nothing readable and no
exceptional condition. -/
def idleRound : SelectRound := ⟨none, none, false⟩

/-- C1 counterexample: after three consecutive idle-timeout rounds with no
readable data on either side, the relay has not terminated — the
`if not readable: continue` line loops instead of ending the relay, so
the claimed idle-timeout termination does not happen. -/
theorem relay_idle_timeout_refuted :
    (relay_data (List.replicate 3 idleRound) ⟨[], []⟩).1
      ≠ RelayOutcome.terminated := by decide

/-- C1 (amended): the relay never terminates on idle — any trace of pure
idle-timeout rounds leaves it running with nothing transferred — while it
does terminate, with the state it had reached, on a zero-byte read on
either side, on a `recv`/`sendall` exception on either side, and on an
exceptional select condition. -/
theorem relay_termination_conditions (evs : List SelectRound)
    (st : RelayState) (hidle : ∀ r ∈ evs, r = idleRound) :
    relay_data evs st = (.running, st)
    ∧ (∀ (rest : List SelectRound) (s : RelayState),
        relay_data (⟨some (.ok []), none, false⟩ :: rest) s
            = (.terminated, s)
        ∧ relay_data (⟨none, some (.ok []), false⟩ :: rest) s
            = (.terminated, s)
        ∧ relay_data (⟨some .err, none, false⟩ :: rest) s = (.terminated, s)
        ∧ relay_data (⟨none, some .err, false⟩ :: rest) s = (.terminated, s)
        ∧ ∀ r : SelectRound, r.exceptional = true →
            relay_data (r :: rest) s = (.terminated, s)) := by
  constructor
  · induction evs with
    | nil => rfl
    | cons r t ih =>
      rw [hidle r (List.mem_cons_self _ _)]
      show relay_data (idleRound :: t) st = (.running, st)
      rw [relay_data]
      simp only [idleRound, Bool.false_eq_true, if_false]
      exact ih fun r hm => hidle r (List.mem_cons_of_mem _ hm)
  · intro rest s
    refine ⟨rfl, rfl, rfl, rfl, fun r hr => ?_⟩
    rw [relay_data, if_pos hr]

/-- C1 witness: one concrete idle round leaves the relay running, and a
zero-byte read from the client terminates it at once. -/
theorem relay_termination_conditions_witness :
    relay_data [idleRound] ⟨[], []⟩ = (.running, ⟨[], []⟩)
    ∧ relay_data [⟨some (.ok []), none, false⟩] ⟨[], []⟩
        = (.terminated, ⟨[], []⟩) := by
  have h := relay_termination_conditions [idleRound] ⟨[], []⟩
    (by intro r hm; simpa using hm)
  exact ⟨h.1, (h.2 [] ⟨[], []⟩).1⟩

/-- PEM-encoded bytes. -/
abbrev Pem := List Nat

/-- CA material as returned by `CertManager`: the certificate and private
key, modelled at the PEM-byte level. -/
structure CAPair where
  cert : Pem
  key : Pem
deriving DecidableEq

/-- Persisted state of the certificate directory: the contents of
`ca-cert.pem` and `ca-key.pem` when those files exist. -/
structure CAFiles where
  certFile : Option Pem
  keyFile : Option Pem
deriving DecidableEq

/-- Model of `CertManager._load_or_generate_ca` (mitm_proxy.py lines
37-50) together with `_generate_ca` (lines 52-116): when both PEM files
exist they are loaded and returned unchanged; otherwise a CA is freshly
generated — the generator randomness is abstracted as the `fresh`
argument — and its PEM encodings are written to both files.  Returns the
in-memory material and the resulting directory state. -/
def load_or_generate_ca (fs : CAFiles) (fresh : CAPair) : CAPair × CAFiles :=
  match fs.certFile, fs.keyFile with
  | some c, some k => (⟨c, k⟩, fs)
  | _, _ => (fresh, ⟨some fresh.cert, some fresh.key⟩)

/-- C4: ensuring the CA twice — in one process or across restarts —
returns byte-identical material: the second call always loads what the
first call left on disk; when both persisted files exist the pair is
loaded and returned unchanged, never regenerated; when a file is absent
the fresh material is returned, and two runs that start from an empty
directory with different randomness return materially different pairs. -/
theorem ensure_ca_idempotent (fs : CAFiles) (f1 f2 : CAPair)
    (hne : f1 ≠ f2) :
    (load_or_generate_ca (load_or_generate_ca fs f1).2 f2).1
        = (load_or_generate_ca fs f1).1
    ∧ (∀ c k, fs = ⟨some c, some k⟩ → load_or_generate_ca fs f1 = (⟨c, k⟩, fs))
    ∧ (fs.certFile = none ∨ fs.keyFile = none →
        (load_or_generate_ca fs f1).1 = f1)
    ∧ (load_or_generate_ca ⟨none, none⟩ f1).1
        ≠ (load_or_generate_ca ⟨none, none⟩ f2).1 := by
  obtain ⟨cf, kf⟩ := fs
  refine ⟨?_, ?_, ?_, hne⟩
  · cases cf <;> cases kf <;> rfl
  · intro c k he
    cases he
    rfl
  · intro h
    cases cf <;> cases kf <;> simp_all [load_or_generate_ca]

/-- C4 witness: starting from an empty directory, the first call persists
and returns the fresh pair `⟨[1], [2]⟩` and the second call reloads it
unchanged, while different randomness from an empty directory gives a
different pair. -/
theorem ensure_ca_idempotent_witness :
    (load_or_generate_ca
        (load_or_generate_ca ⟨none, none⟩ ⟨[1], [2]⟩).2 ⟨[3], [4]⟩).1
      = (load_or_generate_ca ⟨none, none⟩ ⟨[1], [2]⟩).1
    ∧ (load_or_generate_ca ⟨none, none⟩ ⟨[1], [2]⟩).1
      ≠ (load_or_generate_ca ⟨none, none⟩ ⟨[3], [4]⟩).1 := by
  have h := ensure_ca_idempotent ⟨none, none⟩ ⟨[1], [2]⟩ ⟨[3], [4]⟩
    (by decide)
  exact ⟨h.1, h.2.2.2⟩

/-- Observable steps of one `MITMProxyServer.do_mitm` session
(mitm_proxy.py lines 299-359), in the order the source performs them. -/
inductive MitmStep
  | connectTarget
  | tlsTarget
  | genLeaf
  | writeTempFiles
  | loadCertChain
  | send200
  | handshakeClient
  | relay
  | send502
  | closeTarget
  | deleteTempFiles
deriving DecidableEq

/-- Which fallible operations of a `do_mitm` session succeed: the TCP
connect to the target, the TLS origination toward the target, and the TLS
server handshake toward the client (`wrap_socket(..., server_side=True)`).
Everything after the first failing step is skipped by the raised
exception. -/
structure MitmOracle where
  connectOk : Bool
  tlsTargetOk : Bool
  handshakeOk : Bool
deriving DecidableEq

/-- Trace of `do_mitm` under an oracle: the `try` body up to its first
failing step, then `send502` from the `except` branch when a step failed,
then the `finally` branch — close the target socket, and unlink the temp
certificate and key files exactly when they had been created. -/
def do_mitm_trace (o : MitmOracle) : List MitmStep :=
  let body : List MitmStep × Bool × Bool :=
    if o.connectOk = false then ([.connectTarget], false, false)
    else if o.tlsTargetOk = false then
      ([.connectTarget, .tlsTarget], false, false)
    else
      let pre : List MitmStep := [.connectTarget, .tlsTarget, .genLeaf,
        .writeTempFiles, .loadCertChain, .send200]
      if o.handshakeOk = false then (pre ++ [.handshakeClient], true, false)
      else (pre ++ [.handshakeClient, .relay], true, true)
  body.1 ++ (if body.2.2 then [] else [.send502]) ++ [.closeTarget]
    ++ (if body.2.1 then [.deleteTempFiles] else [])

/-- C6 counterexample: in a fully successful MITM session the temp leaf
files do outlive the server-side handshake — the relay runs while they
still exist, and their deletion comes only after the relay has ended, so
the claim that they never exist past the handshake step fails. -/
theorem temp_files_outlive_handshake :
    MitmStep.relay ∈ do_mitm_trace ⟨true, true, true⟩
    ∧ MitmStep.deleteTempFiles ∈ do_mitm_trace ⟨true, true, true⟩
    ∧ ¬ ((do_mitm_trace ⟨true, true, true⟩).findIdx
            (· == MitmStep.deleteTempFiles)
        < (do_mitm_trace ⟨true, true, true⟩).findIdx
            (· == MitmStep.relay)) := by decide

/-- C6 (amended): whenever the temp leaf files were written, the session
deletes them — on the success path and on the client-handshake failure
path alike — but only as the very last step of the session (after the
target socket is closed), so on the success path they persist for the
whole duration of the relay, which runs strictly before the deletion. -/
theorem temp_files_deleted_at_session_end (o : MitmOracle)
    (h : MitmStep.writeTempFiles ∈ do_mitm_trace o) :
    (do_mitm_trace o).getLast? = some .deleteTempFiles
    ∧ (MitmStep.relay ∈ do_mitm_trace o →
        (do_mitm_trace o).findIdx (· == MitmStep.relay)
          < (do_mitm_trace o).findIdx (· == MitmStep.deleteTempFiles)) := by
  obtain ⟨c, t, hs⟩ := o
  cases c <;> cases t <;> cases hs <;> revert h <;> decide

/-- C6 witness: the handshake-failure session still ends by deleting the
temp files it wrote. -/
theorem temp_files_deleted_at_session_end_witness :
    (do_mitm_trace ⟨true, true, false⟩).getLast?
        = some MitmStep.deleteTempFiles
    ∧ (MitmStep.relay ∈ do_mitm_trace ⟨true, true, false⟩ →
        (do_mitm_trace ⟨true, true, false⟩).findIdx (· == MitmStep.relay)
          < (do_mitm_trace ⟨true, true, false⟩).findIdx
              (· == MitmStep.deleteTempFiles)) :=
  temp_files_deleted_at_session_end ⟨true, true, false⟩ (by decide)

/-- X.509 name-attribute object identifiers used by the source. -/
inductive NameOid
  | countryName
  | stateOrProvinceName
  | localityName
  | organizationName
  | commonName
deriving DecidableEq

/-- An X.509 name: the ordered attribute list built by `x509.Name([...])`. -/
abbrev X509Name := List (NameOid × PyStr)

/-- Signature hash algorithm passed to `builder.sign`. -/
inductive HashAlg
  | sha256
deriving DecidableEq

/-- Extension values added by the source. -/
inductive ExtVal
  | subjectAltName (dnsNames : List PyStr)
  | basicConstraints (ca : Bool)
  | keyUsage (digitalSignature keyCertSign crlSign : Bool)
deriving DecidableEq

/-- State of an `x509.CertificateBuilder` chain.  Key material is
abstracted by numeric identities: `pubKey` holds the identity of the key
pair whose public half the certificate carries.  Validity instants are
days. -/
structure CertBuilder where
  subject : Option X509Name := none
  issuer : Option X509Name := none
  pubKey : Option Nat := none
  serial : Option Nat := none
  notBeforeDay : Option Int := none
  notAfterDay : Option Int := none
  extensions : List (ExtVal × Bool) := []
deriving DecidableEq

/-- Models `builder.subject_name(n)`. -/
def subject_name (b : CertBuilder) (n : X509Name) : CertBuilder :=
  { b with subject := some n }

/-- Models `builder.issuer_name(n)`. -/
def issuer_name (b : CertBuilder) (n : X509Name) : CertBuilder :=
  { b with issuer := some n }

/-- Models `builder.public_key(k.public_key())` for the key pair `k`. -/
def public_key (b : CertBuilder) (k : Nat) : CertBuilder :=
  { b with pubKey := some k }

/-- Models `builder.serial_number(n)`. -/
def serial_number (b : CertBuilder) (n : Nat) : CertBuilder :=
  { b with serial := some n }

/-- Models `builder.not_valid_before(d)`. -/
def not_valid_before (b : CertBuilder) (d : Int) : CertBuilder :=
  { b with notBeforeDay := some d }

/-- Models `builder.not_valid_after(d)`. -/
def not_valid_after (b : CertBuilder) (d : Int) : CertBuilder :=
  { b with notAfterDay := some d }

/-- Models `builder.add_extension(v, critical)`. -/
def add_extension (b : CertBuilder) (v : ExtVal) (critical : Bool) :
    CertBuilder :=
  { b with extensions := b.extensions ++ [(v, critical)] }

/-- A certificate produced by `builder.sign(key, alg)`: the built fields
plus the identity of the signing private key and the hash algorithm. -/
structure SignedCert where
  tbs : CertBuilder
  sigKey : Nat
  sigAlg : HashAlg
deriving DecidableEq

/-- Models `builder.sign(key, alg, backend)`. -/
def sign (b : CertBuilder) (k : Nat) (alg : HashAlg) : SignedCert :=
  ⟨b, k, alg⟩

/-- The CA material `generate_cert_for_domain` reads: the subject of the
loaded CA certificate and the identity of the CA private key. -/
structure CAInfo where
  subject : X509Name
  keyId : Nat
deriving DecidableEq

/-- Model of `CertManager.generate_cert_for_domain` (mitm_proxy.py lines
118-171).  `freshKey` abstracts the freshly generated 2048-bit RSA key
pair, `serial` the random serial number, `today` the day of
`datetime.utcnow()`.  The wildcard SAN entry is
`'*' + domain[domain.index('.'):]` — the star followed by the suffix of
the domain from its first dot.  Returns the signed certificate and the
leaf private key. -/
def generate_cert_for_domain (ca : CAInfo) (freshKey serial : Nat)
    (today : Int) (domain : PyStr) : SignedCert × Nat :=
  let subject : X509Name := [(.countryName, "CN".toList),
    (.organizationName, "AIProxy".toList), (.commonName, domain)]
  let sanList := [domain]
  let sanList :=
    if '.' ∈ domain then
      sanList ++ ['*' :: domain.dropWhile (· ≠ '.')]
    else sanList
  let cert :=
    sign
      (add_extension
        (add_extension
          (not_valid_after
            (not_valid_before
              (serial_number
                (public_key
                  (issuer_name (subject_name {} subject) ca.subject)
                  freshKey)
                serial)
              today)
            (today + 365))
          (.subjectAltName sanList) false)
        (.basicConstraints false) true)
      ca.keyId .sha256
  (cert, freshKey)

/-- First value bound to an attribute identifier in an X.509 name. -/
def nameLookup (n : X509Name) (oid : NameOid) : Option PyStr :=
  (n.find? (fun p => p.1 == oid)).map (·.2)

/-- C5: for every domain, the issued leaf certificate has Subject CN equal
to the domain and Issuer equal to the CA subject; its SAN extension
(non-critical) lists the domain and, when the domain contains a dot, the
wildcard formed from a star and the domain suffix from its first dot; it
carries a critical `BasicConstraints(ca=False)`; its validity spans 365
days; and it is signed with the CA private key using SHA-256. -/
theorem leaf_cert_fields (ca : CAInfo) (freshKey serial : Nat)
    (today : Int) (domain : PyStr) :
    ((generate_cert_for_domain ca freshKey serial today
        domain).1.tbs.subject.bind (nameLookup · .commonName) = some domain)
    ∧ (generate_cert_for_domain ca freshKey serial today
        domain).1.tbs.issuer = some ca.subject
    ∧ (∃ san,
        (ExtVal.subjectAltName san, false)
            ∈ (generate_cert_for_domain ca freshKey serial today
                domain).1.tbs.extensions
        ∧ domain ∈ san
        ∧ ('.' ∈ domain →
            ('*' :: domain.dropWhile (· ≠ '.')) ∈ san))
    ∧ (ExtVal.basicConstraints false, true)
        ∈ (generate_cert_for_domain ca freshKey serial today
            domain).1.tbs.extensions
    ∧ (∀ d1 d2,
        (generate_cert_for_domain ca freshKey serial today
            domain).1.tbs.notBeforeDay = some d1 →
        (generate_cert_for_domain ca freshKey serial today
            domain).1.tbs.notAfterDay = some d2 →
        d2 - d1 = 365)
    ∧ (generate_cert_for_domain ca freshKey serial today
        domain).1.sigKey = ca.keyId
    ∧ (generate_cert_for_domain ca freshKey serial today
        domain).1.sigAlg = .sha256 := by
  refine ⟨rfl, rfl, ?_, ?_, ?_, rfl, rfl⟩
  · refine ⟨if '.' ∈ domain then
        [domain] ++ ['*' :: domain.dropWhile (· ≠ '.')] else [domain],
      ?_, ?_, ?_⟩
    · by_cases hdot : '.' ∈ domain <;>
        simp [generate_cert_for_domain, sign, add_extension,
          not_valid_after, not_valid_before, serial_number, public_key,
          issuer_name, subject_name, hdot]
    · by_cases hdot : '.' ∈ domain <;> simp [hdot]
    · intro hdot
      simp [hdot]
  · simp [generate_cert_for_domain, sign, add_extension, not_valid_after,
      not_valid_before, serial_number, public_key, issuer_name,
      subject_name]
  · intro d1 d2 h1 h2
    simp only [generate_cert_for_domain, sign, add_extension,
      not_valid_after, not_valid_before, serial_number, public_key,
      issuer_name, subject_name, Option.some.injEq] at h1 h2
    omega

/-- C5 witness: the leaf for `api.example.com` carries CN
`api.example.com`, the CA issuer, both `api.example.com` and
`*.example.com` in its SAN, critical non-CA basic constraints, a 365-day
validity, and a SHA-256 signature by the CA key. -/
theorem leaf_cert_fields_witness :
    ((generate_cert_for_domain ⟨[], 7⟩ 1 2 0
        ("api.example.com".toList)).1.tbs.subject.bind
          (nameLookup · .commonName) = some ("api.example.com".toList))
    ∧ (∃ san,
        (ExtVal.subjectAltName san, false)
            ∈ (generate_cert_for_domain ⟨[], 7⟩ 1 2 0
                ("api.example.com".toList)).1.tbs.extensions
        ∧ ("api.example.com".toList) ∈ san
        ∧ ("*.example.com".toList) ∈ san) := by
  have h := leaf_cert_fields ⟨[], 7⟩ 1 2 0 ("api.example.com".toList)
  obtain ⟨san, hmem, hdom, hwild⟩ := h.2.2.1
  refine ⟨h.1, san, hmem, hdom, ?_⟩
  have e : ("*.example.com".toList)
      = '*' :: ("api.example.com".toList).dropWhile (· ≠ '.') := by decide
  rw [e]
  exact hwild (by decide)

/-- Models `s.upper()` for ASCII strings. -/
def pyUpper (s : PyStr) : PyStr := s.map Char.toUpper

/-- Models `s.lower()` for ASCII strings. -/
def pyLower (s : PyStr) : PyStr := s.map Char.toLower

/-- The literal `host:` that the header scan looks for. -/
def litHostColon : PyStr := "host:".toList

/-- The literal `CONNECT`. -/
def litConnectUpper : PyStr := "CONNECT".toList

/-- The literal `http://` prepended to origin-form targets. -/
def litHttpSlashSlash : PyStr := "http://".toList

/-- Models the Host-header scan in `handle_request` (mitm_proxy.py lines
240-244): the first header line whose lowercase form starts with `host:`
yields the stripped text after its first colon. -/
def findHostHeader : List PyStr → Option PyStr
  | [] => none
  | l :: rest =>
    if litHostColon.isPrefixOf (pyLower l) then
      some (pyStrip ((l.dropWhile (· ≠ ':')).drop 1))
    else findHostHeader rest

/-- Splits at the first occurrence of the non-empty pattern `c :: ps`:
`some (before, after)` with the pattern removed, `none` when absent. -/
def splitFirstSub (c : Char) (ps : PyStr) : PyStr → Option (PyStr × PyStr)
  | [] => none
  | a :: t =>
    if (c :: ps).isPrefixOf (a :: t) then some ([], t.drop ps.length)
    else
      match splitFirstSub c ps t with
      | none => none
      | some (x, y) => some (a :: x, y)

/-- Characters that end the netloc of a URL. -/
def endsNetloc (ch : Char) : Bool := ch = '/' || ch = '?' || ch = '#'

/-- The fields of a parsed URL that the source reads. -/
structure UrlParts where
  scheme : PyStr
  netloc : PyStr
  rest : PyStr
deriving DecidableEq

/-- Model of `urllib.parse.urlparse` for the URL shapes this proxy
handles: with `"://"` present the scheme is the text before its first
occurrence and the netloc runs from just after it to the first `/`, `?`
or `#`; without `"://"` the whole string is path with an empty netloc
(which makes `handle_request` return).  `rest` keeps path, query and
fragment undissected — the source only reads `netloc`, `hostname` and
`port`. -/
def pyUrlparse (url : PyStr) : UrlParts :=
  match splitFirstSub ':' ['/', '/'] url with
  | none => ⟨[], [], url⟩
  | some (sch, after) =>
    ⟨sch, after.takeWhile (fun ch => !endsNetloc ch),
      after.dropWhile (fun ch => !endsNetloc ch)⟩

/-- Models `parsed.geturl()` after a `_replace`, for the same URL
shapes. -/
def geturl (u : UrlParts) : PyStr :=
  if u.scheme = [] ∧ u.netloc = [] then u.rest
  else u.scheme ++ ':' :: '/' :: '/' :: (u.netloc ++ u.rest)

/-- Models `parsed.hostname`: the netloc below any userinfo, without the
port, lowercased. -/
def pyHostname (netloc : PyStr) : PyStr :=
  pyLower (((pySplitChar '@' netloc).getLastD []).takeWhile (· ≠ ':'))

/-- Models reading `parsed.port`: outer `none` models the `ValueError`
raise on a malformed port, `some none` a missing or empty port,
`some (some p)` a numeric port. -/
def pyPortOfNetloc (netloc : PyStr) : Option (Option Int) :=
  let hostport := (pySplitChar '@' netloc).getLastD []
  if ':' ∈ hostport then
    let p := (hostport.dropWhile (· ≠ ':')).drop 1
    if p = [] then some none
    else if p.all isAsciiDigit then
      some (some (Int.ofNat
        (p.foldl (fun acc d => acc * 10 + (d.toNat - 48)) 0)))
    else none
  else some none

/-- Outcome of the non-CONNECT path of `handle_request`.
`forward host port bytes` means `forward_http` opened a fresh TCP
connection to `(host, port)` and sent exactly `bytes` before starting the
relay; `connect url` hands over to the CONNECT path; `fail502` means
`forward_http` raised before or while dialling and best-effort wrote a
502; `drop` means the handler returned and the client socket was closed
with no upstream traffic. -/
inductive HttpAction
  | drop
  | connect (target : PyStr)
  | fail502
  | forward (dialHost : PyStr) (dialPort : Int) (sent : PyStr)
deriving DecidableEq

/-- Model of `MITMProxyServer.forward_http` (mitm_proxy.py lines
393-414): re-parse the possibly rewritten URL, dial
`(parsed.hostname, parsed.port or 80)` and send the original buffered
request bytes verbatim; `relay_data` then relays the response back. -/
def forward_http (url : PyStr) (original_request : PyStr) : HttpAction :=
  let parsed := pyUrlparse url
  match pyPortOfNetloc parsed.netloc with
  | none => .fail502
  | some po =>
    .forward (pyHostname parsed.netloc) (po.getD 80) original_request

/-- Model of the request-routing logic of `MITMProxyServer.handle_request`
(mitm_proxy.py lines 205-266) on the fully buffered request `r`
(the bytes accumulated until the blank line, treated as ASCII text — the
source decodes them with errors ignored for parsing and sends the same
bytes on).  Mirrors the request-line split, CONNECT dispatch, Host-header
completion of origin-form targets, the domain mapping with its netloc
rewrite and scheme forced to `http`, and the final `forward_http` call on
the possibly rewritten URL carrying the original bytes. -/
def handle_request (rules : RuleSet) (r : PyStr) : HttpAction :=
  let lines := pySplitSub '\r' ['\n'] r
  let first_line := lines.headD []
  let parts := pySplitChar ' ' first_line
  if parts.length < 2 then .drop
  else
    let method := parts.getD 0 []
    let url := parts.getD 1 []
    if pyUpper method = litConnectUpper then .connect url
    else
      let url :=
        if hasScheme url then url
        else
          match findHostHeader (lines.drop 1) with
          | some host => litHttpSlashSlash ++ host ++ url
          | none => url
      let parsed := pyUrlparse url
      if parsed.netloc = [] then .drop
      else
        let mapped := get_target_domain rules parsed.netloc
        let url2 :=
          if mapped ≠ parsed.netloc then
            geturl { parsed with scheme := litHttp, netloc := mapped }
          else url
        forward_http url2 r

/-- TakeWhile and dropWhile split an append exactly at a boundary where
the predicate flips. -/
theorem takeWhile_append_all (p : Char → Bool) (m rest : PyStr)
    (hm : ∀ ch ∈ m, p ch = true)
    (hr : rest = [] ∨ ∃ a t, rest = a :: t ∧ p a = false) :
    (m ++ rest).takeWhile p = m ∧ (m ++ rest).dropWhile p = rest := by
  induction m with
  | nil =>
    rcases hr with h | ⟨a, t, he, hp⟩
    · subst h; simp
    · subst he
      simp [List.takeWhile_cons, List.dropWhile_cons, hp]
  | cons x xs ih =>
    have hx : p x = true := hm x (List.mem_cons_self _ _)
    have ih2 := ih fun ch hc => hm ch (List.mem_cons_of_mem _ hc)
    simp [List.takeWhile_cons, List.dropWhile_cons, hx, ih2.1, ih2.2]

/-- The head of a dropWhile result falsifies the predicate. -/
theorem dropWhile_head_false (p : Char → Bool) (l : PyStr) :
    l.dropWhile p = [] ∨ ∃ a t, l.dropWhile p = a :: t ∧ p a = false := by
  induction l with
  | nil => exact Or.inl rfl
  | cons x xs ih =>
    cases hx : p x with
    | true => rw [List.dropWhile_cons, hx]; simpa using ih
    | false =>
      right
      exact ⟨x, xs, by rw [List.dropWhile_cons, hx]; simp, hx⟩

/-- A string containing the pattern splits at its first occurrence. -/
theorem splitFirstSub_isSome_of_hasSub (c : Char) (ps s : PyStr)
    (h : hasSub c ps s = true) :
    ∃ x y, splitFirstSub c ps s = some (x, y) := by
  induction s with
  | nil => simp [hasSub] at h
  | cons a t ih =>
    rw [hasSub] at h
    rw [splitFirstSub]
    by_cases hp : (c :: ps).isPrefixOf (a :: t) = true
    · rw [if_pos hp]
      exact ⟨_, _, rfl⟩
    · rw [if_neg hp]
      rw [Bool.or_eq_true] at h
      rcases h with h | h
      · exact absurd h hp
      · obtain ⟨x, y, he⟩ := ih h
        rw [he]
        exact ⟨_, _, rfl⟩

/-- Splitting at the first `"://"` after a colon-free prefix. -/
theorem splitFirstSub_colon_append (pre z : PyStr) (hpre : ':' ∉ pre) :
    splitFirstSub ':' ['/', '/'] (pre ++ ':' :: '/' :: '/' :: z)
      = some (pre, z) := by
  induction pre with
  | nil =>
    rw [List.nil_append, splitFirstSub,
      if_pos (by simp [List.isPrefixOf])]
    rfl
  | cons x xs ih =>
    simp only [List.mem_cons, not_or] at hpre
    rw [List.cons_append, splitFirstSub]
    rw [if_neg (by
      simp only [List.isPrefixOf, Bool.and_eq_true, beq_iff_eq]
      intro hc
      exact hpre.1 hc.1)]
    rw [ih hpre.2]

/-- The rest field of a parse of a scheme-qualified URL is empty or starts
with a netloc-ending character. -/
theorem pyUrlparse_rest_head (url : PyStr) (h : hasScheme url = true) :
    (pyUrlparse url).rest = []
    ∨ ∃ a t, (pyUrlparse url).rest = a :: t ∧ endsNetloc a = true := by
  obtain ⟨x, y, he⟩ := splitFirstSub_isSome_of_hasSub ':' ['/', '/'] url h
  rw [pyUrlparse, he]
  rcases dropWhile_head_false (fun ch => !endsNetloc ch) y with
    h0 | ⟨a, t, he2, ha⟩
  · left; simpa using h0
  · right
    refine ⟨a, t, by simpa using he2, ?_⟩
    simpa using ha

/-- Re-parsing the URL that `geturl` rebuilds from an `http` scheme, a
hostname-shaped netloc and a path recovered from a previous parse gives
back the same three fields. -/
theorem pyUrlparse_geturl_http (mapped rest : PyStr)
    (hm : ∀ ch ∈ mapped, endsNetloc ch = false)
    (hr : rest = [] ∨ ∃ a t, rest = a :: t ∧ endsNetloc a = true) :
    pyUrlparse (geturl ⟨litHttp, mapped, rest⟩) = ⟨litHttp, mapped, rest⟩ := by
  have hg : geturl ⟨litHttp, mapped, rest⟩
      = litHttp ++ ':' :: '/' :: '/' :: (mapped ++ rest) := by
    rw [geturl]
    split
    · rename_i hcond
      exact absurd hcond.1 (show ¬(litHttp = ([] : PyStr)) by decide)
    · rfl
  rw [hg]
  have hsplit := splitFirstSub_colon_append litHttp (mapped ++ rest)
    (by decide)
  rw [pyUrlparse, hsplit]
  have hta := takeWhile_append_all (fun ch => !endsNetloc ch) mapped rest
    (fun ch hc => by simp [hm ch hc])
    (by
      rcases hr with h0 | ⟨a, t, he2, ha⟩
      · exact Or.inl h0
      · exact Or.inr ⟨a, t, he2, by simp [ha]⟩)
  show (⟨litHttp, (mapped ++ rest).takeWhile (fun ch => !endsNetloc ch),
      (mapped ++ rest).dropWhile (fun ch => !endsNetloc ch)⟩ : UrlParts)
    = ⟨litHttp, mapped, rest⟩
  rw [hta.1, hta.2]

/-- A takeWhile over elements that all satisfy the predicate is the whole
list. -/
theorem takeWhile_all_true (p : Char → Bool) (l : PyStr)
    (h : ∀ ch ∈ l, p ch = true) : l.takeWhile p = l := by
  induction l with
  | nil => rfl
  | cons x xs ih =>
    simp [List.takeWhile_cons, h x (List.mem_cons_self _ _),
      ih fun ch hc => h ch (List.mem_cons_of_mem _ hc)]

/-- Dialling behaviour of `forward_http` on the rebuilt `http` URL whose
netloc is a bare hostname: it dials the lowercased hostname on port 80
and sends the original request bytes unchanged. -/
theorem forward_http_bare (mapped rest r : PyStr)
    (hm : ∀ ch ∈ mapped, endsNetloc ch = false)
    (hr : rest = [] ∨ ∃ a t, rest = a :: t ∧ endsNetloc a = true)
    (hcol : ':' ∉ mapped) (hat : '@' ∉ mapped) :
    forward_http (geturl ⟨litHttp, mapped, rest⟩) r
      = .forward (pyLower mapped) 80 r := by
  have hp := pyUrlparse_geturl_http mapped rest hm hr
  have hsplitAt : pySplitChar '@' mapped = [mapped] :=
    pySplitChar_no_sep '@' mapped hat
  have hlast : ([mapped] : List PyStr).getLastD [] = mapped := rfl
  have hport : pyPortOfNetloc mapped = some none := by
    simp only [pyPortOfNetloc, hsplitAt, hlast]
    rw [if_neg hcol]
  have hhost : pyHostname mapped = pyLower mapped := by
    simp only [pyHostname, hsplitAt, hlast]
    congr 1
    exact takeWhile_all_true _ mapped fun ch hc =>
      decide_eq_true fun he => hcol (he ▸ hc)
  show (match pyPortOfNetloc (pyUrlparse (geturl
      (⟨litHttp, mapped, rest⟩ : UrlParts))).netloc with
    | none => HttpAction.fail502
    | some po =>
      .forward (pyHostname (pyUrlparse (geturl
        (⟨litHttp, mapped, rest⟩ : UrlParts))).netloc) (po.getD 80) r)
    = .forward (pyLower mapped) 80 r
  rw [hp]
  show (match pyPortOfNetloc mapped with
    | none => HttpAction.fail502
    | some po => .forward (pyHostname mapped) (po.getD 80) r)
    = .forward (pyLower mapped) 80 r
  rw [hport, hhost]
  rfl

/-- C9: for every buffered non-CONNECT request whose absolute-form URL
parses to a netloc with a matching rule (the mapped value being a bare
hostname), the handler rewrites the target URL authority to the mapped
value with the scheme forced to `http`, and `forward_http` dials exactly
that resolved authority (lowercased hostname, default port 80) and sends
the original buffered bytes — request line, headers and body bytes —
verbatim; and the relay copies response chunks from the target back to
the client unmodified and in order. -/
theorem http_forward_rewrites_authority (rules : RuleSet) (r : PyStr)
    (method url : PyStr) (tail : List PyStr)
    (hline : pySplitChar ' ' ((pySplitSub '\r' ['\n'] r).headD [])
      = method :: url :: tail)
    (hnc : pyUpper method ≠ litConnectUpper)
    (hsch : hasScheme url = true)
    (hnet : (pyUrlparse url).netloc ≠ [])
    (hmap : get_target_domain rules (pyUrlparse url).netloc
      ≠ (pyUrlparse url).netloc)
    (hchars : ∀ ch ∈ get_target_domain rules (pyUrlparse url).netloc,
      ch ≠ '/' ∧ ch ≠ '?' ∧ ch ≠ '#' ∧ ch ≠ ':' ∧ ch ≠ '@') :
    handle_request rules r
      = .forward
          (pyLower (get_target_domain rules (pyUrlparse url).netloc)) 80 r
    ∧ ∀ (chunks : List (List Nat)) (st : RelayState), [] ∉ chunks →
        relay_data (chunks.map fun d => ⟨none, some (.ok d), false⟩) st
          = (.running, ⟨st.toClient ++ chunks.flatten, st.toTarget⟩) := by
  constructor
  · have hcol : ':' ∉ get_target_domain rules (pyUrlparse url).netloc :=
      fun hc => ((hchars _ hc).2.2.2.1) rfl
    have hat : '@' ∉ get_target_domain rules (pyUrlparse url).netloc :=
      fun hc => ((hchars _ hc).2.2.2.2) rfl
    rw [handle_request]
    rw [hline]
    simp only [List.length_cons]
    rw [if_neg (by omega)]
    simp only [List.getD_cons_zero, List.getD_cons_succ]
    rw [if_neg hnc, if_pos hsch, if_neg (by simpa using hnet),
      if_pos (by simpa using hmap)]
    exact forward_http_bare _ _ r
      (fun ch hc => by
        obtain ⟨h1, h2, h3, _, _⟩ := hchars ch hc
        simp [endsNetloc, h1, h2, h3])
      (pyUrlparse_rest_head url hsch) hcol hat
  · intro chunks
    induction chunks with
    | nil =>
      intro st _
      simp [relay_data]
    | cons d ds ih =>
      intro st h
      simp only [List.mem_cons, not_or] at h
      cases d with
      | nil => exact absurd rfl h.1
      | cons b bs =>
        have hstep : relay_data
            (((b :: bs) :: ds).map fun d =>
              (⟨none, some (.ok d), false⟩ : SelectRound)) st
          = relay_data (ds.map fun d => ⟨none, some (.ok d), false⟩)
              { st with toClient := st.toClient ++ (b :: bs) } := rfl
        rw [hstep, ih _ h.2]
        simp [List.append_assoc]

/-- A concrete proxied request for the witness. -/
def litGetRequest : PyStr :=
  "GET http://example.com/x HTTP/1.1\r\nHost: example.com\r\n\r\n".toList

/-- Its absolute-form target URL. -/
def litGetUrl : PyStr := "http://example.com/x".toList

/-- C9 witness: the mapped request is forwarded verbatim to
`mapped.example.org:80`, and a response chunk flows back to the client
unchanged. -/
theorem http_forward_rewrites_authority_witness :
    handle_request [(litExampleCom, litMapped)] litGetRequest
      = .forward litMapped 80 litGetRequest
    ∧ relay_data [⟨none, some (.ok [72, 73]), false⟩] ⟨[], []⟩
      = (.running, ⟨[72, 73], []⟩) := by
  have h := http_forward_rewrites_authority [(litExampleCom, litMapped)]
    litGetRequest ("GET".toList) litGetUrl [("HTTP/1.1".toList)]
    (by decide) (by decide) (by decide) (by decide) (by decide) (by decide)
  constructor
  · rw [h.1]
    decide
  · have h2 := h.2 [[72, 73]] ⟨[], []⟩ (by decide)
    simpa using h2

end AIProxy
